import Mathlib

/-!
# GitButler virtual-branch core: a verification development

This file embeds the parts of the GitButler repository that the checked
properties are about:

* `src/crates/gitbutler-branch/src/controller.rs` is embedded directly
  (`Controller` section below): its functions are pure Rust control flow over
  injected collaborators, translated one-to-one.
* The virtual-branch core (`gitbutler-core::virtual_branches`: ownership
  model, classifier, commit family, apply/unapply, upstream merge,
  `verify_branch`) is *not* among the sources — only its test-suite
  (`src/crates/gitbutler-core/tests/virtual_branches/mod.rs`) and its caller
  (the controller) are.  Those components are therefore modelled from the
  specification (sections 4.A–4.I and 6 of the design document), and every
  such definition carries a doc comment starting with `Modelled from the
  spec:`.

Machine integers do not occur on the verified paths; line numbers and
timestamps are natural numbers, hashes are opaque `Nat` identifiers, and
fallible operations return `Except`.
-/

namespace GitButler

/-! ## Ownership model (spec 4.A, 6)

Modelled from the spec: the crate `gitbutler-core`'s `virtual_branches::branch`
ownership types (`BranchOwnershipClaims`, `OwnershipClaim`, `Hunk`) are not in
the sources.  Ranges are kept in the external textual form of spec section 6:
1-based, inclusive on both ends (`a-b` with `a <= b`); a pure file deletion is
the sentinel span `0-0`.  A claim range matches a current hunk iff the hash
matches exactly or the ranges overlap by at least one line (spec 3, "Claim").
-/

/-- A line range in the external 1-based inclusive form `start-stop` of spec
section 6. The sentinel `0-0` marks a whole-file deletion claim. -/
structure LineRange where
  start : Nat
  stop : Nat
deriving DecidableEq, Repr

/-- Two inclusive ranges overlap by at least one line. -/
def LineRange.intersects (a b : LineRange) : Bool :=
  a.start ≤ b.stop && b.start ≤ a.stop

/-- Number of lines shared by two inclusive ranges. -/
def LineRange.overlapLen (a b : LineRange) : Nat :=
  (min a.stop b.stop) + 1 - (max a.start b.start)

/-- Modelled from the spec: one owned range of a claim, with its bounded
hash history (most recent first, spec invariant O3). -/
structure OwnedHunk where
  range : LineRange
  hashes : List Nat
deriving DecidableEq, Repr

/-- Modelled from the spec: a claim is a path together with its owned
ranges (spec 3, "Claim"; corresponds to the missing `OwnershipClaim`). -/
structure OwnershipClaim where
  file_path : String
  hunks : List OwnedHunk
deriving DecidableEq, Repr

/-- Modelled from the spec: a branch's ownership, an ordered list of claims,
one per path (corresponds to the missing `BranchOwnershipClaims`). -/
structure BranchOwnershipClaims where
  claims : List OwnershipClaim
deriving DecidableEq, Repr

/-- The kind of a canonical diff hunk (spec 4.B: a file add and a file delete
are single whole-file hunks). -/
inductive HunkKind where
  | edit
  | addFile
  | delFile
deriving DecidableEq, Repr

/-- Modelled from the spec: a canonical current hunk as produced by the diff
engine adapter (spec 4.B, missing from the sources). `range` is the new-file
line range used for ownership; `oldStart`/`oldLen` locate the replaced lines
of the old file (1-based, `oldLen = 0` for a pure insertion) and `newLines`
are the lines that replace them; `hash` is the stable hash of the diff body. -/
structure Hunk where
  file_path : String
  kind : HunkKind
  range : LineRange
  oldStart : Nat
  oldLen : Nat
  newLines : List String
  hash : Nat
deriving DecidableEq, Repr

/-- An owned range matches a current hunk iff the hash matches exactly
(exact move) or the ranges overlap by at least one line (drift). -/
def OwnedHunk.matches (o : OwnedHunk) (h : Hunk) : Bool :=
  o.hashes.any (fun x => x == h.hash) || o.range.intersects h.range

/-- A claim contains a hunk iff the paths agree and some owned range
matches it. -/
def OwnershipClaim.containsHunk (c : OwnershipClaim) (h : Hunk) : Bool :=
  c.file_path == h.file_path && c.hunks.any (fun o => o.matches h)

/-- `contains(owner_list, hunk)` of spec 4.A: exact-hash hit, else
range-overlap hit. -/
def BranchOwnershipClaims.containsHunk (own : BranchOwnershipClaims) (h : Hunk) : Bool :=
  own.claims.any (fun c => c.containsHunk h)

/-- An ownership has an exact-hash hit for a hunk (used by the classifier
tie-break: exact-hash wins over range-only, spec 4.A). -/
def BranchOwnershipClaims.hashHit (own : BranchOwnershipClaims) (h : Hunk) : Bool :=
  own.claims.any (fun c => c.file_path == h.file_path &&
    c.hunks.any (fun o => o.hashes.any (fun x => x == h.hash)))

/-- Total overlap (in lines) between an ownership and a hunk's new range
(classifier tie-break: the largest overlap wins). -/
def BranchOwnershipClaims.overlapAmount (own : BranchOwnershipClaims) (h : Hunk) : Nat :=
  (own.claims.map (fun c =>
    if c.file_path == h.file_path then
      (c.hunks.map (fun o => if o.range.intersects h.range then o.range.overlapLen h.range else 0)).sum
    else 0)).sum

/-- Modelled from the spec: the part of `minus` (spec 4.A) acting on one owned
range: an owned range whose hash history holds the removed hunk's hash is
dropped entirely; an overlapping range is split, keeping the lines outside
the removed range (split remnants drop the pinned hashes, which identify the
removed content); a non-matching range is kept. -/
def OwnedHunk.minus (o : OwnedHunk) (r : LineRange) (hashes : List Nat) : List OwnedHunk :=
  if o.hashes.any (fun x => hashes.any (fun y => y == x)) then []
  else if o.range.intersects r then
    (if o.range.start < r.start then [⟨⟨o.range.start, r.start - 1⟩, []⟩] else []) ++
    (if r.stop < o.range.stop then [⟨⟨r.stop + 1, o.range.stop⟩, []⟩] else [])
  else [o]

/-- `minus` restricted to one claim: remove the matching ranges of a removed
range/hash pair from the claim, splitting where necessary. -/
def OwnershipClaim.minus (c : OwnershipClaim) (path : String) (r : LineRange)
    (hashes : List Nat) : OwnershipClaim :=
  if c.file_path == path then
    { c with hunks := c.hunks.flatMap (fun o => o.minus r hashes) }
  else c

/-- `minus(owner_list, claim)` of spec 4.A: remove matching ranges from a
branch's ownership, splitting ranges where necessary; claims left without
ranges are dropped. -/
def BranchOwnershipClaims.minus (own : BranchOwnershipClaims) (path : String)
    (r : LineRange) (hashes : List Nat) : BranchOwnershipClaims :=
  ⟨(own.claims.map (fun c => c.minus path r hashes)).filter (fun c => !c.hunks.isEmpty)⟩

/-- Add a hunk's range to an ownership, prepending the hash to the history
(the "add to target" half of `take`, spec 4.A). If a claim for the path
exists the owned range is prepended to it, otherwise a new claim is added. -/
def BranchOwnershipClaims.addHunk (own : BranchOwnershipClaims) (h : Hunk) : BranchOwnershipClaims :=
  if own.claims.any (fun c => c.file_path == h.file_path) then
    ⟨own.claims.map (fun c =>
      if c.file_path == h.file_path then
        { c with hunks := ⟨h.range, [h.hash]⟩ :: c.hunks }
      else c)⟩
  else
    ⟨⟨h.file_path, [⟨h.range, [h.hash]⟩]⟩ :: own.claims⟩

/-! ## Working-tree model

Modelled from the spec: trees and the working tree are association lists from
paths to file contents (lists of lines); the revision object store is an
external collaborator (spec 1), so blobs are inlined. -/

/-- A tree: an association list from paths to file contents. -/
def Tree := List (String × List String)
deriving DecidableEq, Repr

/-- Content of a path in a tree. -/
def Tree.get : Tree → String → Option (List String)
  | [], _ => none
  | e :: t, p => if e.1 = p then some e.2 else Tree.get t p

/-- Set the content of a path (replace the first entry, else append). -/
def Tree.set : Tree → String → List String → Tree
  | [], p, v => [(p, v)]
  | e :: t, p, v => if e.1 = p then (p, v) :: t else e :: Tree.set t p v

/-- Remove a path from a tree. -/
def Tree.remove : Tree → String → Tree
  | [], _ => []
  | e :: t, p => if e.1 = p then Tree.remove t p else e :: Tree.remove t p

/-- Splice a hunk's replacement lines into a file's content: lines before
`oldStart` (1-based), then the new lines, then everything after the
`oldLen` replaced lines. -/
def spliceLines (lines : List String) (oldStart oldLen : Nat) (newLines : List String) :
    List String :=
  lines.take (oldStart - 1) ++ newLines ++ lines.drop (oldStart - 1 + oldLen)

/-- The effect of one hunk on one file's (optional) content. -/
def hunkEffect (c : Option (List String)) (h : Hunk) : Option (List String) :=
  match h.kind with
  | .delFile => none
  | .addFile => some h.newLines
  | .edit =>
    match c with
    | none => none
    | some lines => some (spliceLines lines h.oldStart h.oldLen h.newLines)

/-- Modelled from the spec: apply one canonical hunk to a tree (the
line-indexed patcher of spec 4.E; a file add includes the path, an owned
delete omits it, an edit splices the replaced lines). An edit of a path
absent from the tree is skipped (spec 4.C failure mode). -/
def Tree.applyHunk (t : Tree) (h : Hunk) : Tree :=
  match h.kind with
  | .delFile => t.remove h.file_path
  | .addFile => t.set h.file_path h.newLines
  | .edit =>
    match t.get h.file_path with
    | none => t
    | some lines => t.set h.file_path (spliceLines lines h.oldStart h.oldLen h.newLines)

/-- Apply a list of hunks in order. -/
def Tree.applyHunks (t : Tree) (hs : List Hunk) : Tree :=
  hs.foldl Tree.applyHunk t

theorem Tree.get_set_self (t : Tree) (p : String) (v : List String) :
    (t.set p v).get p = some v := by
  induction t with
  | nil => simp [Tree.set, Tree.get]
  | cons a l ih =>
    by_cases hap : a.1 = p
    · simp [Tree.set, Tree.get, hap]
    · simp [Tree.set, Tree.get, hap, ih]

theorem Tree.get_set_ne (t : Tree) (p q : String) (v : List String) (hpq : ¬ p = q) :
    (t.set p v).get q = t.get q := by
  induction t with
  | nil => simp [Tree.set, Tree.get, hpq]
  | cons a l ih =>
    by_cases hap : a.1 = p
    · simp [Tree.set, Tree.get, hap, hpq]
    · simp [Tree.set, Tree.get, hap, ih]

theorem Tree.get_remove_ne (t : Tree) (p q : String) (hpq : ¬ p = q) :
    (t.remove p).get q = t.get q := by
  induction t with
  | nil => simp [Tree.remove]
  | cons a l ih =>
    by_cases hap : a.1 = p
    · have haq : ¬ a.1 = q := by rw [hap]; exact hpq
      simp [Tree.remove, Tree.get, hap, haq, hpq, ih]
    · simp [Tree.remove, Tree.get, hap, ih]

theorem Tree.get_remove_self (t : Tree) (p : String) : (t.remove p).get p = none := by
  induction t with
  | nil => simp [Tree.remove, Tree.get]
  | cons a l ih =>
    by_cases hap : a.1 = p
    · simp [Tree.remove, Tree.get, hap, ih]
    · simp [Tree.remove, Tree.get, hap, ih]

/-- The content a hunk list leaves at a path depends only on the path's
initial content and the hunks that touch that path, folded in order. -/
theorem Tree.get_applyHunks (t : Tree) (hs : List Hunk) (p : String) :
    (t.applyHunks hs).get p =
      (hs.filter (fun h => h.file_path == p)).foldl hunkEffect (t.get p) := by
  induction hs generalizing t with
  | nil => rfl
  | cons h rest ih =>
    have step : (t.applyHunk h).get p =
        (if h.file_path == p then hunkEffect (t.get p) h else t.get p) := by
      by_cases hp : h.file_path = p
      · simp only [hp, beq_self_eq_true, if_true]
        unfold Tree.applyHunk hunkEffect
        cases hk : h.kind
        · simp only [hk]
          cases hg : t.get h.file_path
          · rw [hp] at hg; simp [hg]
          · rw [hp] at hg
            simp only [hg]
            rw [← hp, Tree.get_set_self]
        · simp only [hk]
          rw [← hp, Tree.get_set_self]
        · simp only [hk]
          rw [← hp, Tree.get_remove_self]
      · have hpb : (h.file_path == p) = false := by simpa using hp
        simp only [hpb, if_false]
        unfold Tree.applyHunk
        cases hk : h.kind
        · simp only [hk]
          cases hg : t.get h.file_path
          · rfl
          · exact Tree.get_set_ne t h.file_path p _ hp
        · exact Tree.get_set_ne t h.file_path p _ hp
        · exact Tree.get_remove_ne t h.file_path p hp
    show ((t.applyHunk h).applyHunks rest).get p = _
    rw [ih (t.applyHunk h), step]
    by_cases hp : h.file_path == p
    · simp [List.filter, hp]
    · simp only [Bool.not_eq_true] at hp
      simp [List.filter, hp]

/-! ## Branch records, classifier and `take` (spec 3, 4.A, 4.C) -/

/-- Modelled from the spec: one commit of a branch's chain (newest first).
`committedHunks` records which canonical hunks the commit carried (the tree
`T(b)` of spec 4.G is built from exactly those), `parentCount` the number of
parents (2 for a merge commit). -/
structure CommitRec where
  message : String
  tree : Tree
  committedHunks : List Hunk
  parentCount : Nat
deriving DecidableEq, Repr

/-- Modelled from the spec: the persistent virtual-branch record (spec 3),
restricted to the fields the checked properties consult. `stash` holds the
uncommitted hunks materialized by `unapply` (spec 4.H) so they can be
restored. -/
structure Branch where
  id : Nat
  applied : Bool
  order : Nat
  selected_for_changes : Option Nat
  updated_timestamp_ms : Nat
  ownership : BranchOwnershipClaims
  commits : List CommitRec
  conflicted : Bool
  stash : List Hunk
deriving DecidableEq, Repr

/-- The tree at `b.head`: the newest commit's tree, or the base tree for a
branch with no commits of its own (branches are created with
`head = base.sha`, spec 3). -/
def branchHeadTree (base : Tree) (b : Branch) : Tree :=
  match b.commits with
  | [] => base
  | c :: _ => c.tree

/-- The applied branches whose ownership claims a hunk. -/
def claiming (branches : List Branch) (h : Hunk) : List Branch :=
  branches.filter (fun b => b.applied && b.ownership.containsHunk h)

/-- Modelled from the spec: the classifier tie-break (spec 4.A): exact-hash
wins over range-only; among range-only candidates the largest overlap wins;
then the most recent `updated_timestamp_ms`; then the lowest `order`.
`betterCandidate h a b` holds when `a` beats `b` for hunk `h`. -/
def betterCandidate (h : Hunk) (a b : Branch) : Bool :=
  if a.ownership.hashHit h != b.ownership.hashHit h then a.ownership.hashHit h
  else if a.ownership.overlapAmount h != b.ownership.overlapAmount h then
    a.ownership.overlapAmount h > b.ownership.overlapAmount h
  else if a.updated_timestamp_ms != b.updated_timestamp_ms then
    a.updated_timestamp_ms > b.updated_timestamp_ms
  else a.order < b.order

/-- Fold a non-empty candidate list down to the winner of a pairwise
comparison. -/
def pickBy (f : Branch → Branch → Bool) : List Branch → Option Branch
  | [] => none
  | c :: cs => some (cs.foldl (fun best b => if f b best then b else best) c)

/-- The best applied branch claiming the hunk, per the tie-break. -/
def bestClaiming (branches : List Branch) (h : Hunk) : Option Branch :=
  pickBy (betterCandidate h) (claiming branches h)

/-- Modelled from the spec: the branch that receives unclaimed hunks (spec
4.C step 3): the applied branch whose `selected_for_changes` is set (most
recent wins), else the lowest-`order` applied branch. -/
def defaultTargetBranch (branches : List Branch) : Option Branch :=
  let applied := branches.filter (fun b => b.applied)
  match pickBy (fun a b => a.selected_for_changes.getD 0 > b.selected_for_changes.getD 0)
      (applied.filter (fun b => b.selected_for_changes.isSome)) with
  | some b => some b
  | none => pickBy (fun a b => a.order < b.order) applied

/-- Modelled from the spec: the hunk-to-branch classifier (spec 4.C): a hunk
goes to the best applied branch claiming it, and an unclaimed hunk to the
default target branch. Returns the owning branch's id. -/
def classifyHunk (branches : List Branch) (h : Hunk) : Option Nat :=
  match bestClaiming branches h with
  | some b => some b.id
  | none => (defaultTargetBranch branches).map (fun b => b.id)

/-- `take(target, hunk)` of spec 4.A: remove the hunk's range from every
other applied branch's claims, add it to the target, prepending the hash. -/
def takeHunk (branches : List Branch) (targetId : Nat) (h : Hunk) : List Branch :=
  branches.map (fun b =>
    if b.id = targetId then { b with ownership := b.ownership.addHunk h }
    else if b.applied then
      { b with ownership := b.ownership.minus h.file_path h.range [h.hash] }
    else b)

/-! ## Workspace state and status (spec 4.C, 4.G) -/

/-- Modelled from the spec: the per-project workspace state the classifier
pass operates on: the base tree (`default_target.sha`'s tree), the current
hunk set `H` produced by the diff engine adapter (spec 4.B, an external
input here), and the branch records. After a commit the committed hunks
leave `H` (the adapter re-derives the remaining hunks; their stale old-file
coordinates are refreshed by it, which this model does not re-run). -/
structure WorkspaceState where
  baseTree : Tree
  hunks : List Hunk
  branches : List Branch
deriving DecidableEq, Repr

/-- The current hunks owned by a branch: those the classifier assigns to it. -/
def ownedHunks (st : WorkspaceState) (bid : Nat) : List Hunk :=
  st.hunks.filter (fun h => classifyHunk st.branches h == some bid)

/-- The paths of a branch's uncommitted files, deduplicated (the
`branch.files` of `list_virtual_branches`). -/
def branchFilePaths (st : WorkspaceState) (bid : Nat) : List String :=
  ((ownedHunks st bid).map (fun h => h.file_path)).dedup

/-- Number of uncommitted files of a branch (`branch.files.len()`). -/
def branchFileCount (st : WorkspaceState) (bid : Nat) : Nat :=
  (branchFilePaths st bid).length

/-- Number of uncommitted hunks of a branch in one file. -/
def branchFileHunkCount (st : WorkspaceState) (bid : Nat) (p : String) : Nat :=
  ((ownedHunks st bid).filter (fun h => h.file_path == p)).length

/-- The record of a branch in the workspace. -/
def findBranch (st : WorkspaceState) (bid : Nat) : Option Branch :=
  st.branches.find? (fun b => b.id == bid)

/-- Number of commits of a branch (`branch.commits.len()`). -/
def branchCommitCount (st : WorkspaceState) (bid : Nat) : Nat :=
  match findBranch st bid with
  | some b => b.commits.length
  | none => 0

/-! ## Commit operation (spec 4.G) -/

/-- The errors of the commit family that the checked properties exercise
(spec 7). -/
inductive CommitError where
  | CommitHookRejected (stdout : String)
  | CommitMsgHookRejected (stdout : String)
deriving DecidableEq, Repr

/-- A hunk passes a claim filter when there is no filter or the filter's
claims match it (spec 4.G: "using only hunks matched by `claim_filter`"). -/
def hunkMatchesFilter (filterClaims : Option BranchOwnershipClaims) (h : Hunk) : Bool :=
  match filterClaims with
  | none => true
  | some own => own.containsHunk h

/-- Modelled from the spec: the state change of a successful `commit` (spec
4.G): build `T(b)` from the branch's owned hunks matched by the filter,
create a commit with parent `b.head` (two parents when resolving a
conflicted upstream merge, spec 4.I), remove the committed hunks from the
branch's claims and from the current hunk set, and clear `conflicted`. -/
def commitCore (st : WorkspaceState) (bid : Nat) (message : String)
    (filterClaims : Option BranchOwnershipClaims) : WorkspaceState :=
  let isCommitted := fun (h : Hunk) =>
    classifyHunk st.branches h == some bid && hunkMatchesFilter filterClaims h
  let committed := st.hunks.filter isCommitted
  { st with
    hunks := st.hunks.filter (fun h => !(isCommitted h)),
    branches := st.branches.map (fun b =>
      if b.id = bid then
        { b with
          commits := ⟨message, (branchHeadTree st.baseTree b).applyHunks committed,
                      committed, if b.conflicted then 2 else 1⟩ :: b.commits,
          ownership := committed.foldl
            (fun own h => own.minus h.file_path h.range [h.hash]) b.ownership,
          conflicted := false }
      else b) }

/-- Modelled from the spec: `commit` (spec 4.G). When `run_hooks` is set the
pre-commit hook runs first — a non-zero exit fails the operation with
`CommitHookRejected(stdout)` — then the commit-msg hook — a non-zero exit
fails with `CommitMsgHookRejected(stdout)`. The hook collaborators are
injected as their observed outcome: `none` for a zero exit, `some stdout`
for a rejection. On a rejection no state is produced. -/
def commit (preHookRejection msgHookRejection : Option String) (run_hooks : Bool)
    (st : WorkspaceState) (bid : Nat) (message : String)
    (filterClaims : Option BranchOwnershipClaims) : Except CommitError WorkspaceState :=
  if run_hooks then
    match preHookRejection with
    | some stdout => .error (.CommitHookRejected stdout)
    | none =>
      match msgHookRejection with
      | some stdout => .error (.CommitMsgHookRejected stdout)
      | none => .ok (commitCore st bid message filterClaims)
  else .ok (commitCore st bid message filterClaims)

/-! ## Ownership exclusivity lemmas -/

theorem OwnedHunk.matches_minus (o o' : OwnedHunk) (h : Hunk)
    (hmem : o' ∈ o.minus h.range [h.hash]) : o'.matches h = false := by
  unfold OwnedHunk.minus at hmem
  split_ifs at hmem with h1 h2 h3 h4 h5
  · simp at hmem
  · rcases List.mem_append.mp hmem with hm | hm <;>
      simp only [List.mem_singleton] at hm <;> subst hm <;>
      simp only [OwnedHunk.matches, LineRange.intersects, List.any_nil,
        Bool.false_or, Bool.and_eq_true, decide_eq_true_eq,
        Bool.and_eq_false_iff, decide_eq_false_iff_not] <;>
      omega
  · simp only [List.append_nil, List.mem_singleton] at hmem
    subst hmem
    simp only [OwnedHunk.matches, LineRange.intersects, List.any_nil,
      Bool.false_or, Bool.and_eq_false_iff, decide_eq_false_iff_not]
    omega
  · simp only [List.nil_append, List.mem_singleton] at hmem
    subst hmem
    simp only [OwnedHunk.matches, LineRange.intersects, List.any_nil,
      Bool.false_or, Bool.and_eq_false_iff, decide_eq_false_iff_not]
    omega
  · simp at hmem
  · simp only [List.mem_singleton] at hmem
    subst hmem
    simp only [OwnedHunk.matches, Bool.or_eq_false_iff]
    constructor
    · rw [List.any_eq_false]
      intro x hx
      simp only [List.any_cons, List.any_nil, Bool.or_false, List.any_eq_true,
        not_exists] at h1
      intro hc
      have hxe : x = h.hash := by simpa using hc
      exact h1 x ⟨hx, by simp [hxe]⟩
    · simpa using h2

theorem OwnershipClaim.containsHunk_minus_self (c : OwnershipClaim) (h : Hunk) :
    (c.minus h.file_path h.range [h.hash]).containsHunk h = false := by
  unfold OwnershipClaim.minus
  by_cases hp : c.file_path == h.file_path
  · simp only [hp, if_true, OwnershipClaim.containsHunk, hp, Bool.true_and]
    rw [List.any_eq_false]
    intro o' hmem
    rcases List.mem_flatMap.mp hmem with ⟨o, _, hmo⟩
    simp only [Bool.not_eq_true]
    exact OwnedHunk.matches_minus o o' h hmo
  · simp only [Bool.not_eq_true] at hp
    simp [OwnershipClaim.containsHunk, hp]

theorem BranchOwnershipClaims.containsHunk_minus (own : BranchOwnershipClaims) (h : Hunk) :
    (own.minus h.file_path h.range [h.hash]).containsHunk h = false := by
  unfold BranchOwnershipClaims.minus BranchOwnershipClaims.containsHunk
  rw [List.any_eq_false]
  intro c hmem
  have hmem2 := List.mem_of_mem_filter hmem
  rcases List.mem_map.mp hmem2 with ⟨c0, _, hc0⟩
  subst hc0
  simp only [Bool.not_eq_true]
  exact OwnershipClaim.containsHunk_minus_self c0 h

theorem BranchOwnershipClaims.containsHunk_addHunk (own : BranchOwnershipClaims) (h : Hunk) :
    (own.addHunk h).containsHunk h = true := by
  unfold BranchOwnershipClaims.addHunk
  by_cases hex : own.claims.any (fun c => c.file_path == h.file_path)
  · simp only [hex, if_true, BranchOwnershipClaims.containsHunk]
    rw [List.any_eq_true] at hex
    rcases hex with ⟨c, hc, hcp⟩
    rw [List.any_eq_true]
    refine ⟨{ c with hunks := ⟨h.range, [h.hash]⟩ :: c.hunks }, ?_, ?_⟩
    · refine List.mem_map.mpr ⟨c, hc, ?_⟩
      simp [hcp]
    · simp [OwnershipClaim.containsHunk, OwnedHunk.matches, hcp]
  · simp only [hex, if_false, BranchOwnershipClaims.containsHunk]
    simp [OwnershipClaim.containsHunk, OwnedHunk.matches]

/-- After `take(target, hunk)`, the applied branches claiming the hunk are
exactly the (updated) target. -/
theorem claiming_takeHunk (branches : List Branch) (target : Branch) (h : Hunk)
    (huniq : branches.filter (fun b => b.applied && b.id == target.id) = [target]) :
    claiming (takeHunk branches target.id h) h
      = [{ target with ownership := target.ownership.addHunk h }] := by
  unfold claiming takeHunk
  rw [List.filter_map]
  have hcong : ∀ b ∈ branches,
      ((fun b : Branch => b.applied && b.ownership.containsHunk h) ∘
        (fun b : Branch =>
          if b.id = target.id then { b with ownership := b.ownership.addHunk h }
          else if b.applied then
            { b with ownership := b.ownership.minus h.file_path h.range [h.hash] }
          else b)) b
      = (fun b : Branch => b.applied && b.id == target.id) b := by
    intro b _
    by_cases hid : b.id = target.id
    · simp [hid, BranchOwnershipClaims.containsHunk_addHunk]
    · by_cases happ : b.applied
      · simp [hid, happ, BranchOwnershipClaims.containsHunk_minus]
      · simp [hid, happ]
  rw [List.filter_congr hcong, huniq]
  simp

/-- After `take(target, hunk)`, the classifier assigns the hunk to the
target branch. -/
theorem classifyHunk_takeHunk (branches : List Branch) (target : Branch) (h : Hunk)
    (huniq : branches.filter (fun b => b.applied && b.id == target.id) = [target]) :
    classifyHunk (takeHunk branches target.id h) h = some target.id := by
  unfold classifyHunk bestClaiming
  rw [claiming_takeHunk branches target h huniq]
  simp [pickBy]

/-- With a single applied branch every current hunk is assigned to it:
either its ownership claims the hunk, or the hunk is unclaimed and falls to
the default target branch (spec 4.C step 3). -/
theorem classifyHunk_singleton (b : Branch) (h : Hunk) (happ : b.applied = true) :
    classifyHunk [b] h = some b.id := by
  unfold classifyHunk bestClaiming claiming defaultTargetBranch pickBy
  by_cases hc : b.ownership.containsHunk h = true
  · simp [happ, hc, List.filter]
  · simp only [Bool.not_eq_true] at hc
    cases hsel : b.selected_for_changes <;>
      simp [happ, hc, hsel, List.filter]

/-- Claim C1: in every classifier pass, each current hunk is owned by at
most one applied branch (invariant O1), and `take(target, hunk)` removes the
hunk's matching ranges from every other applied branch's claims and adds
them to the target, so the subsequent status shows the hunk only under the
target branch. -/
theorem gitbutler_C1_ownership_disjoint_take
    (st : WorkspaceState) (target : Branch) (h : Hunk)
    (huniq : st.branches.filter (fun b => b.applied && b.id == target.id) = [target]) :
    (∀ b1 b2 : Nat, b1 ≠ b2 → ∀ g ∈ ownedHunks st b1, g ∉ ownedHunks st b2)
    ∧ (∀ b ∈ takeHunk st.branches target.id h, b.applied = true → b.id ≠ target.id →
        b.ownership.containsHunk h = false)
    ∧ (∀ b ∈ takeHunk st.branches target.id h, b.id = target.id →
        b.ownership.containsHunk h = true)
    ∧ classifyHunk (takeHunk st.branches target.id h) h = some target.id := by
  refine ⟨?_, ?_, ?_, classifyHunk_takeHunk st.branches target h huniq⟩
  · intro b1 b2 hne g hg1 hg2
    have h1 := (List.mem_filter.mp hg1).2
    have h2 := (List.mem_filter.mp hg2).2
    simp only [beq_iff_eq] at h1 h2
    exact hne (Option.some_injective _ (h1 ▸ h2 ▸ rfl))
  · intro b hb happ hbid
    rcases List.mem_map.mp hb with ⟨b0, _, hb0⟩
    by_cases hid : b0.id = target.id
    · exfalso
      apply hbid
      rw [← hb0]
      simp [hid]
    · by_cases happ0 : b0.applied = true
      · rw [← hb0]
        simp only [hid, if_false, happ0, if_true]
        exact BranchOwnershipClaims.containsHunk_minus b0.ownership h
      · exfalso
        rw [← hb0] at happ
        simp only [hid, if_false] at happ
        simp only [Bool.not_eq_true] at happ0
        simp [happ0] at happ
  · intro b hb hbid
    rcases List.mem_map.mp hb with ⟨b0, _, hb0⟩
    by_cases hid : b0.id = target.id
    · rw [← hb0]
      simp only [hid, if_true]
      exact BranchOwnershipClaims.containsHunk_addHunk b0.ownership h
    · rw [← hb0] at hbid
      by_cases happ0 : b0.applied = true
      · simp [hid, happ0] at hbid
      · simp [hid, happ0] at hbid

/-- Scenario of the `move_hunks_multiple_sources` test: three applied
branches; branch 1 claims `test.txt:11-15`, branch 2 claims `test.txt:1-5`,
branch 3 is the take target. -/
def c1Branch1 : Branch := ⟨1, true, 0, none, 0, ⟨[⟨"test.txt", [⟨⟨11, 15⟩, []⟩]⟩]⟩, [], false, []⟩

/-- Second branch of the C1 scenario. -/
def c1Branch2 : Branch := ⟨2, true, 1, none, 0, ⟨[⟨"test.txt", [⟨⟨1, 5⟩, []⟩]⟩]⟩, [], false, []⟩

/-- Take-target branch of the C1 scenario. -/
def c1Branch3 : Branch := ⟨3, true, 2, none, 0, ⟨[]⟩, [], false, []⟩

/-- The hunk prepending `line0` (new-file lines 1-4 with context). -/
def c1Hunk : Hunk := ⟨"test.txt", .edit, ⟨1, 4⟩, 1, 0, ["line0"], 101⟩

/-- Workspace of the C1 scenario. -/
def c1State : WorkspaceState :=
  ⟨[("test.txt", ["line1", "line2", "line3", "line4"])], [c1Hunk],
    [c1Branch1, c1Branch2, c1Branch3]⟩

theorem gitbutler_C1_ownership_disjoint_take_witness :
    (c1State.branches.filter (fun b => b.applied && b.id == c1Branch3.id) = [c1Branch3])
    ∧ classifyHunk (takeHunk c1State.branches c1Branch3.id c1Hunk) c1Hunk
        = some c1Branch3.id :=
  ⟨by decide,
    (gitbutler_C1_ownership_disjoint_take c1State c1Branch3 c1Hunk (by decide)).2.2.2⟩

/-! ## Claim C2: commit with no filter, then a new edit -/

/-- Claim C2: for an applied branch `b` with uncommitted files, `commit`
with no claim filter leaves `b` with zero uncommitted files and exactly one
more commit, whose head tree is the previous head tree with all of `b`'s
previously uncommitted hunks applied; a subsequent edit (one new hunk on
another file) shows exactly one file on `b` while the commit count stays
unchanged. -/
theorem gitbutler_C2_commit_all_then_edit
    (base : Tree) (hunks : List Hunk) (b : Branch) (msg : String) (h2 : Hunk)
    (happ : b.applied = true) (_hfiles : hunks ≠ []) :
    ∃ st2 : WorkspaceState,
      commit none none false ⟨base, hunks, [b]⟩ b.id msg none = .ok st2
      ∧ branchFileCount st2 b.id = 0
      ∧ branchCommitCount st2 b.id = b.commits.length + 1
      ∧ (∃ b2 ∈ st2.branches, b2.id = b.id ∧
          branchHeadTree base b2 = (branchHeadTree base b).applyHunks hunks)
      ∧ branchFileCount { st2 with hunks := [h2] } b.id = 1
      ∧ branchCommitCount { st2 with hunks := [h2] } b.id = b.commits.length + 1 := by
  have hclass : ∀ g : Hunk, classifyHunk [b] g = some b.id :=
    fun g => classifyHunk_singleton b g happ
  have hpred : ∀ g : Hunk,
      (classifyHunk [b] g == some b.id && hunkMatchesFilter none g) = true := by
    intro g
    simp [hclass g, hunkMatchesFilter]
  set bNew : Branch :=
    { b with
      commits := ⟨msg, (branchHeadTree base b).applyHunks
          (hunks.filter (fun g => classifyHunk [b] g == some b.id && hunkMatchesFilter none g)),
        hunks.filter (fun g => classifyHunk [b] g == some b.id && hunkMatchesFilter none g),
        if b.conflicted then 2 else 1⟩ :: b.commits,
      ownership := (hunks.filter
          (fun g => classifyHunk [b] g == some b.id && hunkMatchesFilter none g)).foldl
        (fun own g => own.minus g.file_path g.range [g.hash]) b.ownership,
      conflicted := false } with hbNew
  have hcore : commitCore ⟨base, hunks, [b]⟩ b.id msg none = ⟨base, [], [bNew]⟩ := by
    unfold commitCore
    simp only [hbNew]
    congr 1
    · rw [List.filter_eq_nil_iff]
      intro g _
      simp [hpred g]
    · simp
  have hfilterall : hunks.filter
      (fun g => classifyHunk [b] g == some b.id && hunkMatchesFilter none g) = hunks := by
    rw [List.filter_eq_self]
    intro g _
    exact hpred g
  refine ⟨⟨base, [], [bNew]⟩, ?_, ?_, ?_, ?_, ?_, ?_⟩
  · show Except.ok (commitCore ⟨base, hunks, [b]⟩ b.id msg none) = _
    rw [hcore]
  · simp [branchFileCount, branchFilePaths, ownedHunks]
  · have hid : bNew.id = b.id := by rw [hbNew]
    simp [branchCommitCount, findBranch, hbNew]
  · refine ⟨bNew, by simp, by rw [hbNew], ?_⟩
    rw [hbNew]
    simp only [branchHeadTree]
    rw [hfilterall]
  · have happ2 : bNew.applied = true := by rw [hbNew]; exact happ
    have hid : bNew.id = b.id := by rw [hbNew]
    have hclass2 : classifyHunk [bNew] h2 = some b.id := by
      rw [classifyHunk_singleton bNew h2 happ2, hid]
    simp [branchFileCount, branchFilePaths, ownedHunks, hclass2]
  · simp [branchCommitCount, findBranch, hbNew]

/-- Scenario of the `commit_on_branch_then_change_file_then_get_status`
test: two base files, `test.txt` edited to prepend `line0`, then after the
commit `test2.txt` edited to insert `lineBLAH`. -/
def c2Base : Tree :=
  [("test.txt", ["line1", "line2", "line3", "line4"]),
   ("test2.txt", ["line5", "line6", "line7", "line8"])]

/-- The uncommitted `line0` hunk of the C2 scenario. -/
def c2Hunk1 : Hunk := ⟨"test.txt", .edit, ⟨1, 4⟩, 1, 0, ["line0"], 11⟩

/-- The post-commit `lineBLAH` hunk of the C2 scenario. -/
def c2Hunk2 : Hunk := ⟨"test2.txt", .edit, ⟨1, 5⟩, 3, 0, ["lineBLAH"], 12⟩

/-- The single virtual branch of the C2 scenario. -/
def c2Branch : Branch := ⟨1, true, 0, none, 0, ⟨[]⟩, [], false, []⟩

theorem gitbutler_C2_commit_all_then_edit_witness :
    c2Branch.applied = true ∧ [c2Hunk1] ≠ []
    ∧ ∃ st2 : WorkspaceState,
        commit none none false ⟨c2Base, [c2Hunk1], [c2Branch]⟩ c2Branch.id
            "test commit" none = .ok st2
        ∧ branchFileCount st2 c2Branch.id = 0
        ∧ branchCommitCount st2 c2Branch.id = c2Branch.commits.length + 1
        ∧ (∃ b2 ∈ st2.branches, b2.id = c2Branch.id ∧
            branchHeadTree c2Base b2 = (branchHeadTree c2Base c2Branch).applyHunks [c2Hunk1])
        ∧ branchFileCount { st2 with hunks := [c2Hunk2] } c2Branch.id = 1
        ∧ branchCommitCount { st2 with hunks := [c2Hunk2] } c2Branch.id
            = c2Branch.commits.length + 1 :=
  ⟨by decide, by decide,
    gitbutler_C2_commit_all_then_edit c2Base [c2Hunk1] c2Branch "test commit" c2Hunk2
      (by decide) (by decide)⟩

/-! ## Claim C3: partial commit by hunk, with the textual claim form -/

deriving instance DecidableEq for Except

/-- Split a character list on a separator (keeping empty segments), the
helper for the textual claim form of spec 6. -/
def splitOnChar (c : Char) : List Char → List (List Char)
  | [] => [[]]
  | x :: xs =>
    match splitOnChar c xs with
    | [] => if x = c then [[], [x]] else [[x]]
    | r :: rs => if x = c then [] :: r :: rs else (x :: r) :: rs

/-- Parse a non-empty decimal digit string. -/
def digitsToNat (cs : List Char) : Option Nat :=
  if cs.isEmpty then none
  else cs.foldl (fun acc c =>
    match acc with
    | none => none
    | some n => if '0' ≤ c ∧ c ≤ '9' then some (n * 10 + (c.toNat - '0'.toNat)) else none)
    (some 0)

/-- Modelled from the spec: parse one `a-b` range of the textual claim form
(spec 6): 1-based, inclusive, `a ≤ b` required; `none` models the
`MalformedClaim` failure of spec 4.A. -/
def parseRange (cs : List Char) : Option LineRange :=
  match splitOnChar '-' cs with
  | [a, b] =>
    match digitsToNat a, digitsToNat b with
    | some x, some y => if x ≤ y then some ⟨x, y⟩ else none
    | _, _ => none
  | _ => none

/-- Modelled from the spec: `parse("path:a-b,c-d")` of spec 4.A (the
optional trailing hunk-hash history of the textual form is not exercised by
the checked properties and is left out); `none` models `MalformedClaim`. -/
def parseOwnershipClaim (s : String) : Option OwnershipClaim :=
  match splitOnChar ':' s.toList with
  | [path, ranges] =>
    let parts := (splitOnChar ',' ranges).map parseRange
    if parts.any (fun r => r.isNone) then none
    else if parts.isEmpty then none
    else some ⟨String.mk path, (parts.filterMap id).map (fun r => ⟨r, []⟩)⟩
  | _ => none

/-- Parse a one-claim ownership, the form used as a commit claim filter. -/
def parseOwnership (s : String) : Option BranchOwnershipClaims :=
  (parseOwnershipClaim s).map (fun c => ⟨[c]⟩)

/-- Hunk counts of a branch's commits, newest first (the
`commits[i].files[0].hunks.len()` observations of the tests). -/
def commitHunkCounts (st : WorkspaceState) (bid : Nat) : List Nat :=
  match findBranch st bid with
  | some b => b.commits.map (fun c => c.committedHunks.length)
  | none => []

/-- Base content of the `commit_partial_by_hunk` test: 19 lines with two
`middle` blocks separating the two later patch sites. -/
def c3Base : Tree :=
  [("test.txt",
    ["line1", "line2", "line3", "line4", "line5", "middle", "middle", "middle",
     "middle", "line6", "line7", "line8", "line9", "line10", "middle", "middle",
     "middle", "line11", "line12"])]

/-- The `patch1` hunk near the top (new-file lines 1-5 with context). -/
def c3Hunk1 : Hunk := ⟨"test.txt", .edit, ⟨1, 5⟩, 2, 0, ["patch1"], 21⟩

/-- The `patch2` hunk near the bottom (new-file lines 16-21 with context). -/
def c3Hunk2 : Hunk := ⟨"test.txt", .edit, ⟨16, 21⟩, 18, 0, ["patch2"], 22⟩

/-- The single virtual branch of the C3 scenario. -/
def c3Branch : Branch := ⟨1, true, 0, none, 0, ⟨[]⟩, [], false, []⟩

/-- Workspace of the C3 scenario: one file, two non-adjacent hunks. -/
def c3State : WorkspaceState := ⟨c3Base, [c3Hunk1, c3Hunk2], [c3Branch]⟩

/-- State after committing the claim `test.txt:1-6`. -/
def c3State1 : WorkspaceState :=
  commitCore c3State 1 "first commit to test.txt" (parseOwnership "test.txt:1-6")

/-- State after additionally committing the claim `test.txt:16-22`. -/
def c3State2 : WorkspaceState :=
  commitCore c3State1 1 "second commit to test.txt" (parseOwnership "test.txt:16-22")

/-- Claim C3: on a branch owning one file with two non-adjacent hunks,
committing with claim filter `test.txt:1-6` creates one commit carrying
exactly one hunk and leaves one file with one remaining hunk; a second
commit with claim `test.txt:16-22` leaves zero uncommitted files and two
commits, each carrying exactly one hunk. -/
theorem gitbutler_C3_commit_by_hunk :
    commit none none false c3State 1 "first commit to test.txt"
        (parseOwnership "test.txt:1-6") = .ok c3State1
    ∧ commit none none false c3State1 1 "second commit to test.txt"
        (parseOwnership "test.txt:16-22") = .ok c3State2
    ∧ branchFileCount c3State 1 = 1 ∧ branchFileHunkCount c3State 1 "test.txt" = 2
    ∧ branchCommitCount c3State 1 = 0
    ∧ branchFileCount c3State1 1 = 1 ∧ branchFileHunkCount c3State1 1 "test.txt" = 1
    ∧ branchCommitCount c3State1 1 = 1
    ∧ commitHunkCounts c3State1 1 = [1]
    ∧ branchFileCount c3State2 1 = 0
    ∧ branchCommitCount c3State2 1 = 2
    ∧ commitHunkCounts c3State2 1 = [1, 1] := by
  decide

/-! ## Claim C4: unapply / apply round trip (spec 4.H) -/

/-- Modelled from the spec: the working-tree content, the base tree with all
current hunks applied (the integration of spec 4.F restricted to content:
the synthetic tree is the union of the applied branches' edits, which is
the current hunk set). -/
def workingTree (st : WorkspaceState) : Tree :=
  st.baseTree.applyHunks st.hunks

/-- Modelled from the spec: `unapply(b)` (spec 4.H): materialize `b`'s
uncommitted hunks as a stash attached to `b`'s record so they can be
restored, rerun the integration with `b` excluded (its hunks leave the
current set), and clear `applied`. -/
def unapply_branch (st : WorkspaceState) (bid : Nat) : WorkspaceState :=
  let stashed := st.hunks.filter (fun h => classifyHunk st.branches h == some bid)
  { st with
    hunks := st.hunks.filter (fun h => !(classifyHunk st.branches h == some bid)),
    branches := st.branches.map (fun b =>
      if b.id = bid then { b with applied := false, stash := stashed } else b) }

/-- Modelled from the spec: `apply(b)` (spec 4.H): reintroduce `b`'s stashed
hunks (if any) and set `applied`. -/
def apply_branch (st : WorkspaceState) (bid : Nat) : WorkspaceState :=
  match findBranch st bid with
  | none => st
  | some b =>
    { st with
      hunks := st.hunks ++ b.stash,
      branches := st.branches.map (fun b2 =>
        if b2.id = bid then { b2 with applied := true, stash := [] } else b2) }

theorem findBranch_map_preserving (branches : List Branch) (f : Branch → Branch)
    (hf : ∀ b, (f b).id = b.id) (bid : Nat) :
    (branches.map f).find? (fun b => b.id == bid)
      = (branches.find? (fun b => b.id == bid)).map f := by
  induction branches with
  | nil => rfl
  | cons a l ih =>
    simp only [List.map_cons, List.find?]
    rw [hf a]
    cases hq : a.id == bid
    · exact ih
    · rfl

/-- Claim C4: `unapply(b)` followed by `apply(b)` restores the working-tree
content and every branch record (in particular `b`'s claim set) exactly; in
the unapplied state an owned added file is absent, an owned deleted file is
back to its base content, and paths not owned by `b` are unchanged; on
re-apply the owned add/delete are re-established. -/
theorem gitbutler_C4_unapply_apply_roundtrip
    (st : WorkspaceState) (b : Branch) (bid : Nat)
    (hfind : findBranch st bid = some b)
    (hall : ∀ b0 ∈ st.branches, b0.id = bid → (b0.applied = true ∧ b0.stash = []))
    (hcoh : ∀ h1 ∈ st.hunks, ∀ h2 ∈ st.hunks, h1.file_path = h2.file_path →
      (classifyHunk st.branches h1 == some bid) = (classifyHunk st.branches h2 == some bid)) :
    ((apply_branch (unapply_branch st bid) bid).branches = st.branches)
    ∧ (∀ p, (workingTree (apply_branch (unapply_branch st bid) bid)).get p
        = (workingTree st).get p)
    ∧ (∀ h ∈ st.hunks, (classifyHunk st.branches h == some bid) = true →
        st.hunks.filter (fun h2 => h2.file_path == h.file_path) = [h] →
        ((h.kind = .addFile →
            (workingTree (unapply_branch st bid)).get h.file_path = st.baseTree.get h.file_path
            ∧ (workingTree (apply_branch (unapply_branch st bid) bid)).get h.file_path
                = some h.newLines)
         ∧ (h.kind = .delFile →
            (workingTree (unapply_branch st bid)).get h.file_path = st.baseTree.get h.file_path
            ∧ (workingTree (apply_branch (unapply_branch st bid) bid)).get h.file_path
                = none)))
    ∧ (∀ p, (∀ h ∈ st.hunks, (classifyHunk st.branches h == some bid) = true →
          ¬ h.file_path = p) →
        (workingTree (unapply_branch st bid)).get p = (workingTree st).get p) := by
  have hfmono : ∀ b2 : Branch,
      ((fun b2 : Branch =>
        if b2.id = bid then
          { b2 with
            applied := false,
            stash := st.hunks.filter (fun h => classifyHunk st.branches h == some bid) }
        else b2) b2).id = b2.id := by
    intro b2
    by_cases hid : b2.id = bid <;> simp [hid]
  have hfind1 : findBranch (unapply_branch st bid) bid
      = some { b with
          applied := false,
          stash := st.hunks.filter (fun h => classifyHunk st.branches h == some bid) } := by
    unfold findBranch at hfind ⊢
    unfold unapply_branch
    simp only
    rw [findBranch_map_preserving _ _ hfmono, hfind]
    have hbid : b.id = bid := by
      have := List.find?_some hfind
      simpa using this
    simp [hbid]
  have happly : apply_branch (unapply_branch st bid) bid
      = { st with
          hunks := st.hunks.filter (fun h => !(classifyHunk st.branches h == some bid))
            ++ st.hunks.filter (fun h => classifyHunk st.branches h == some bid),
          branches := (unapply_branch st bid).branches.map (fun b2 =>
            if b2.id = bid then { b2 with applied := true, stash := [] } else b2) } := by
    unfold apply_branch
    rw [hfind1]
    rfl
  have hbranches : (apply_branch (unapply_branch st bid) bid).branches = st.branches := by
    rw [happly]
    show (st.branches.map _).map _ = st.branches
    rw [List.map_map]
    have : ∀ b0 ∈ st.branches,
        ((fun b2 : Branch => if b2.id = bid then { b2 with applied := true, stash := [] } else b2)
          ∘ (fun b2 : Branch => if b2.id = bid then
              { b2 with
                applied := false,
                stash := st.hunks.filter (fun h => classifyHunk st.branches h == some bid) }
            else b2)) b0 = id b0 := by
      intro b0 hb0
      by_cases hid : b0.id = bid
      · rcases hall b0 hb0 hid with ⟨ha, hs⟩
        simp only [Function.comp_apply, id_eq]
        rw [if_pos hid, if_pos (show ({ b0 with
            applied := false,
            stash := st.hunks.filter (fun h => classifyHunk st.branches h == some bid) } :
            Branch).id = bid from hid)]
        obtain ⟨i, a, o, s, u, ow, cm, cf, stl⟩ := b0
        simp only at ha hs
        rw [ha, hs]
      · simp only [Function.comp_apply, id_eq]
        rw [if_neg hid, if_neg hid]
    rw [List.map_congr_left this, List.map_id]
  -- the per-path characterization of the final current hunk set
  have hgetfin : ∀ p, (workingTree (apply_branch (unapply_branch st bid) bid)).get p
      = (((st.hunks.filter (fun h => !(classifyHunk st.branches h == some bid))
          ++ st.hunks.filter (fun h => classifyHunk st.branches h == some bid)).filter
            (fun h => h.file_path == p)).foldl hunkEffect (st.baseTree.get p)) := by
    intro p
    rw [happly]
    exact Tree.get_applyHunks _ _ p
  have hgetun : ∀ p, (workingTree (unapply_branch st bid)).get p
      = (((st.hunks.filter (fun h => !(classifyHunk st.branches h == some bid))).filter
            (fun h => h.file_path == p)).foldl hunkEffect (st.baseTree.get p)) := by
    intro p
    exact Tree.get_applyHunks _ _ p
  have hgetorig : ∀ p, (workingTree st).get p
      = ((st.hunks.filter (fun h => h.file_path == p)).foldl hunkEffect
          (st.baseTree.get p)) := by
    intro p
    exact Tree.get_applyHunks _ _ p
  refine ⟨hbranches, ?_, ?_, ?_⟩
  · intro p
    rw [hgetfin p, hgetorig p, List.filter_append, List.filter_filter, List.filter_filter]
    by_cases hallp : ∀ h ∈ st.hunks, (h.file_path == p) = true →
        (classifyHunk st.branches h == some bid) = true
    · have h1 : st.hunks.filter
          (fun h => (h.file_path == p) && !(classifyHunk st.branches h == some bid)) = [] := by
        rw [List.filter_eq_nil_iff]
        intro h hmem
        by_cases hp : (h.file_path == p) = true
        · simp [hp, hallp h hmem hp]
        · simp only [Bool.not_eq_true] at hp
          simp [hp]
      have h2 : st.hunks.filter
          (fun h => (h.file_path == p) && (classifyHunk st.branches h == some bid))
          = st.hunks.filter (fun h => h.file_path == p) := by
        apply List.filter_congr
        intro h hmem
        by_cases hp : (h.file_path == p) = true
        · simp [hp, hallp h hmem hp]
        · simp only [Bool.not_eq_true] at hp
          simp [hp]
      rw [h1, h2, List.nil_append]
    · push_neg at hallp
      rcases hallp with ⟨h0, hmem0, hp0, hq0⟩
      have hnotq : ∀ h ∈ st.hunks, (h.file_path == p) = true →
          (classifyHunk st.branches h == some bid) = false := by
        intro h hmem hp
        have hpath : h.file_path = h0.file_path := by
          have e1 : h.file_path = p := by simpa using hp
          have e2 : h0.file_path = p := by simpa using hp0
          rw [e1, e2]
        rw [hcoh h hmem h0 hmem0 hpath]
        simpa using hq0
      have h1 : st.hunks.filter
          (fun h => (h.file_path == p) && !(classifyHunk st.branches h == some bid))
          = st.hunks.filter (fun h => h.file_path == p) := by
        apply List.filter_congr
        intro h hmem
        by_cases hp : (h.file_path == p) = true
        · simp [hp, hnotq h hmem hp]
        · simp only [Bool.not_eq_true] at hp
          simp [hp]
      have h2 : st.hunks.filter
          (fun h => (h.file_path == p) && (classifyHunk st.branches h == some bid)) = [] := by
        rw [List.filter_eq_nil_iff]
        intro h hmem
        by_cases hp : (h.file_path == p) = true
        · simp [hp, hnotq h hmem hp]
        · simp only [Bool.not_eq_true] at hp
          simp [hp]
      rw [h1, h2, List.append_nil]
  · intro h hmem hq hsolo
    have hsolofin : (st.hunks.filter (fun g => !(classifyHunk st.branches g == some bid))
        ++ st.hunks.filter (fun g => classifyHunk st.branches g == some bid)).filter
          (fun g => g.file_path == h.file_path) = [h] := by
      rw [List.filter_append, List.filter_filter, List.filter_filter]
      have hq1 : st.hunks.filter
          (fun g => (g.file_path == h.file_path) && !(classifyHunk st.branches g == some bid))
          = [] := by
        rw [List.filter_eq_nil_iff]
        intro g hg
        by_cases hp : (g.file_path == h.file_path) = true
        · have : g ∈ st.hunks.filter (fun h2 => h2.file_path == h.file_path) :=
            List.mem_filter.mpr ⟨hg, hp⟩
          rw [hsolo] at this
          simp only [List.mem_singleton] at this
          subst this
          simp [hq]
        · simp only [Bool.not_eq_true] at hp
          simp [hp]
      have hq2 : st.hunks.filter
          (fun g => (g.file_path == h.file_path) && (classifyHunk st.branches g == some bid))
          = [h] := by
        have : st.hunks.filter
            (fun g => (g.file_path == h.file_path) && (classifyHunk st.branches g == some bid))
            = st.hunks.filter (fun g => g.file_path == h.file_path) := by
          apply List.filter_congr
          intro g hg
          by_cases hp : (g.file_path == h.file_path) = true
          · have : g ∈ st.hunks.filter (fun h2 => h2.file_path == h.file_path) :=
              List.mem_filter.mpr ⟨hg, hp⟩
            rw [hsolo] at this
            simp only [List.mem_singleton] at this
            subst this
            simp [hq, hp]
          · simp only [Bool.not_eq_true] at hp
            simp [hp]
        rw [this, hsolo]
      rw [hq1, hq2, List.nil_append]
    have hsoloun : (st.hunks.filter (fun g => !(classifyHunk st.branches g == some bid))).filter
        (fun g => g.file_path == h.file_path) = [] := by
      rw [List.filter_filter, List.filter_eq_nil_iff]
      intro g hg
      by_cases hp : (g.file_path == h.file_path) = true
      · have : g ∈ st.hunks.filter (fun h2 => h2.file_path == h.file_path) :=
          List.mem_filter.mpr ⟨hg, hp⟩
        rw [hsolo] at this
        simp only [List.mem_singleton] at this
        subst this
        simp [hq]
      · simp only [Bool.not_eq_true] at hp
        simp [hp]
    constructor
    · intro hkind
      constructor
      · rw [hgetun h.file_path, hsoloun]
        rfl
      · rw [hgetfin h.file_path, hsolofin]
        simp [hunkEffect, hkind]
    · intro hkind
      constructor
      · rw [hgetun h.file_path, hsoloun]
        rfl
      · rw [hgetfin h.file_path, hsolofin]
        simp [hunkEffect, hkind]
  · intro p hnone
    rw [hgetun p, hgetorig p, List.filter_filter]
    congr 1
    apply List.filter_congr
    intro g hg
    by_cases hp : (g.file_path == p) = true
    · have hqg : (classifyHunk st.branches g == some bid) = false := by
        cases hqc : (classifyHunk st.branches g == some bid)
        · rfl
        · exact absurd (by simpa using hp) (hnone g hg hqc)
      simp [hp, hqg]
    · simp only [Bool.not_eq_true] at hp
      simp [hp]

/-- Branch owning the deletion of `test2.txt` (claim `test2.txt:0-0`), from
the `apply_unapply_added_deleted_files` test. -/
def c4Branch2 : Branch := ⟨2, true, 0, none, 0, ⟨[⟨"test2.txt", [⟨⟨0, 0⟩, []⟩]⟩]⟩, [], false, []⟩

/-- Branch owning the added `test3.txt` (claim `test3.txt:1-2`). -/
def c4Branch3 : Branch := ⟨3, true, 1, none, 0, ⟨[⟨"test3.txt", [⟨⟨1, 2⟩, []⟩]⟩]⟩, [], false, []⟩

/-- The whole-file deletion hunk of `test2.txt`. -/
def c4HunkDel : Hunk := ⟨"test2.txt", .delFile, ⟨0, 0⟩, 1, 1, [], 31⟩

/-- The whole-file addition hunk of `test3.txt`. -/
def c4HunkAdd : Hunk := ⟨"test3.txt", .addFile, ⟨1, 2⟩, 0, 0, ["file3"], 32⟩

/-- Workspace of the C4 scenario. -/
def c4State : WorkspaceState :=
  ⟨[("test.txt", ["file1"]), ("test2.txt", ["file2"])], [c4HunkDel, c4HunkAdd],
    [c4Branch2, c4Branch3]⟩

theorem gitbutler_C4_unapply_apply_roundtrip_witness :
    (findBranch c4State 2 = some c4Branch2)
    ∧ (∀ b0 ∈ c4State.branches, b0.id = 2 → (b0.applied = true ∧ b0.stash = []))
    ∧ (∀ h1 ∈ c4State.hunks, ∀ h2 ∈ c4State.hunks, h1.file_path = h2.file_path →
        (classifyHunk c4State.branches h1 == some 2)
          = (classifyHunk c4State.branches h2 == some 2))
    ∧ (apply_branch (unapply_branch c4State 2) 2).branches = c4State.branches :=
  ⟨by decide, by decide, by decide,
    (gitbutler_C4_unapply_apply_roundtrip c4State c4Branch2 2 (by decide) (by decide)
      (by decide)).1⟩

/-! ## Claim C5: upstream merge with a conflict (spec 4.I)

Modelled from the spec: `merge_virtual_branch_upstream` and the three-way
content merge are not among the sources.  The conflicted path follows spec
4.I ("On conflict, produce … inline markers and `b.conflicted := true`; the
user then resolves and commits, yielding a two-parent merge") with the
commit-count behaviour the repository's test-suite observes: the conflicted
merge leaves the branch's commit chain unchanged, and the two-parent merge
commit is created by the commit that resolves the conflict. -/

/-- Length of the common prefix of two line lists. -/
def commonPrefixLen : List String → List String → Nat
  | a :: as, b :: bs => if a = b then commonPrefixLen as bs + 1 else 0
  | _, _ => 0

/-- Modelled from the spec: three-way merge of one file's lines. If either
side equals the base (or both sides agree) the merge is clean; otherwise the
diverging middle is wrapped in `<<<<<<< ours` / `=======` / `>>>>>>> theirs`
markers and the conflict flag is set. -/
def merge3 (base ours theirs : List String) : List String × Bool :=
  if ours = theirs then (ours, false)
  else if base = ours then (theirs, false)
  else if base = theirs then (ours, false)
  else
    let p := commonPrefixLen ours theirs
    let oursRest := ours.drop p
    let theirsRest := theirs.drop p
    let s := commonPrefixLen oursRest.reverse theirsRest.reverse
    (ours.take p
      ++ ["<<<<<<< ours"] ++ oursRest.take (oursRest.length - s)
      ++ ["======="] ++ theirsRest.take (theirsRest.length - s)
      ++ [">>>>>>> theirs"]
      ++ oursRest.drop (oursRest.length - s), true)

/-- Three-way merge of one path's optional contents: a path present on only
one side is taken as is. -/
def merge3Opt (base ours theirs : Option (List String)) : Option (List String) × Bool :=
  match ours, theirs with
  | some o, some t =>
    let m := merge3 (base.getD []) o t
    (some m.1, m.2)
  | some o, none => (some o, false)
  | none, some t => (some t, false)
  | none, none => (none, false)

/-- The distinct paths of a tree. -/
def treePaths (t : Tree) : List String :=
  (t.map (fun e => e.1)).dedup

/-- Modelled from the spec: file-wise three-way merge of trees; the flag is
set when any file conflicts. -/
def mergeTrees (base ours theirs : Tree) : Tree × Bool :=
  let ps := (treePaths ours ++ treePaths theirs).dedup
  (ps.filterMap (fun p =>
      match (merge3Opt (base.get p) (ours.get p) (theirs.get p)).1 with
      | some v => some (p, v)
      | none => none),
   ps.any (fun p => (merge3Opt (base.get p) (ours.get p) (theirs.get p)).2))

/-- Modelled from the spec: the state `merge_upstream(b)` operates on: the
tree at `b.head` (the merge ancestor), the tree at `upstream_head`, the
working-tree content (head plus `b`'s uncommitted edit), `b`'s commit chain
(newest first) and `b`'s conflict flag. -/
structure MergeState where
  headTree : Tree
  upstreamTree : Tree
  workTree : Tree
  commits : List CommitRec
  conflicted : Bool
deriving DecidableEq, Repr

/-- Modelled from the spec: `merge_upstream(b)` (spec 4.I): three-way merge
the upstream head into `b.head` with the working tree as ours. On conflict
the markers are written into the working tree and `conflicted` is set; no
commit is created (the repository's test-suite observes an unchanged commit
count after a conflicted merge, the two-parent commit appearing only once
the user resolves and commits). A clean merge records the merge commit. -/
def merge_virtual_branch_upstream (st : MergeState) : MergeState :=
  let m := mergeTrees st.headTree st.workTree st.upstreamTree
  if m.2 then { st with workTree := m.1, conflicted := true }
  else
    { st with
      workTree := m.1,
      commits := ⟨"Merged from upstream", m.1, [], 2⟩ :: st.commits,
      conflicted := false }

/-- Modelled from the spec: the commit that resolves a conflicted upstream
merge: the user's resolved tree becomes the commit tree, the commit has two
parents when the branch was conflicted, and `conflicted` is cleared. -/
def commitMergeResolution (st : MergeState) (resolved : Tree) (msg : String) : MergeState :=
  { st with
    workTree := resolved,
    commits := ⟨msg, resolved, [], if st.conflicted then 2 else 1⟩ :: st.commits,
    conflicted := false }

/-- Head content of the `merge_vbranch_upstream_conflict` scenario. -/
def c5Head : Tree := [("test.txt", ["line1", "line2", "line3", "line4", "upstream"])]

/-- Upstream head content (coworker work on top). -/
def c5Upstream : Tree :=
  [("test.txt", ["line1", "line2", "line3", "line4", "upstream", "coworker work"])]

/-- Working-tree content (the uncommitted `other side` edit). -/
def c5Work : Tree :=
  [("test.txt", ["line1", "line2", "line3", "line4", "upstream", "other side"])]

/-- The merge scenario: one pushed commit, a conflicting uncommitted edit. -/
def c5State : MergeState := ⟨c5Head, c5Upstream, c5Work, [⟨"last push", c5Head, [], 1⟩], false⟩

/-- The user's conflict resolution. -/
def c5Resolved : Tree :=
  [("test.txt",
    ["line1", "line2", "line3", "line4", "upstream", "other side", "coworker work"])]

/-- State after the conflicted upstream merge. -/
def c5Merged : MergeState := merge_virtual_branch_upstream c5State

/-- State after the user resolves and commits. -/
def c5Final : MergeState := commitMergeResolution c5Merged c5Resolved "fix merge conflict"

theorem gitbutler_C5_merge_conflict_cex :
    c5Merged.conflicted = true
    ∧ c5Merged.commits = c5State.commits
    ∧ c5State.commits.length = 1
    ∧ ¬ (c5Merged.commits.length = c5State.commits.length + 1) := by
  decide

/-- Claim C5 (amended): a conflicted upstream merge writes the inline
conflict markers into the working file and sets `conflicted`, creating no
commit; the commit that resolves the conflict clears `conflicted` and is a
merge commit with exactly two parents. -/
theorem gitbutler_C5_merge_conflict_amended :
    c5Merged.workTree.get "test.txt"
      = some ["line1", "line2", "line3", "line4", "upstream",
              "<<<<<<< ours", "other side", "=======", "coworker work", ">>>>>>> theirs"]
    ∧ c5Merged.conflicted = true
    ∧ c5Merged.commits.length = 1
    ∧ c5Final.conflicted = false
    ∧ (c5Final.commits.head?.map (fun c => c.parentCount)) = some 2 := by
  decide

/-! ## Claim C6: hook rejections (spec 4.G, 7) -/

/-- Claim C6: with `run_hooks` set, a pre-commit hook exiting non-zero fails
the commit with `CommitHookRejected` carrying the hook's stdout, and a
commit-msg hook exiting non-zero fails it with `CommitMsgHookRejected`; in
both cases the operation produces only the error — no commit is created and
no successor state exists. -/
theorem gitbutler_C6_hook_rejection
    (st : WorkspaceState) (bid : Nat) (msg : String)
    (filterClaims : Option BranchOwnershipClaims) (preOut msgOut : Option String) :
    (∀ stdout, preOut = some stdout →
      commit preOut msgOut true st bid msg filterClaims
        = .error (.CommitHookRejected stdout)
      ∧ ∀ st2, ¬ commit preOut msgOut true st bid msg filterClaims = .ok st2)
    ∧ (∀ stdout, preOut = none → msgOut = some stdout →
      commit preOut msgOut true st bid msg filterClaims
        = .error (.CommitMsgHookRejected stdout)
      ∧ ∀ st2, ¬ commit preOut msgOut true st bid msg filterClaims = .ok st2) := by
  constructor
  · intro stdout hpre
    subst hpre
    refine ⟨rfl, ?_⟩
    intro st2 hok
    simp [commit] at hok
  · intro stdout hpre hmsg
    subst hpre
    subst hmsg
    refine ⟨rfl, ?_⟩
    intro st2 hok
    simp [commit] at hok

theorem gitbutler_C6_hook_rejection_witness :
    commit (some "rejected\n") none true ⟨c2Base, [c2Hunk1], [c2Branch]⟩ 1 "test commit" none
      = .error (.CommitHookRejected "rejected\n")
    ∧ commit none (some "rejected\n") true ⟨c2Base, [c2Hunk1], [c2Branch]⟩ 1 "test commit" none
      = .error (.CommitMsgHookRejected "rejected\n") :=
  ⟨((gitbutler_C6_hook_rejection ⟨c2Base, [c2Hunk1], [c2Branch]⟩ 1 "test commit" none
      (some "rejected\n") none).1 "rejected\n" rfl).1,
   ((gitbutler_C6_hook_rejection ⟨c2Base, [c2Hunk1], [c2Branch]⟩ 1 "test commit" none
      none (some "rejected\n")).2 "rejected\n" rfl rfl).1⟩

/-! ## Claim C7: integration-banner verification (spec 6)

Modelled from the spec: `virtual_branches::integration::verify_branch` is
not among the sources. The integration commit's message carries a fixed
banner; `verify_branch` rejects any HEAD whose top commit does not carry it
with `NotOnIntegration` naming the offending ref, and higher layers may
repair commits made directly on top of the integration head by recording
them into the top applied virtual branch. -/

/-- The fixed banner of the synthetic workspace commit's message header. -/
def integrationBanner : String := "GitButler Integration Commit"

/-- A commit carries the integration banner. -/
def isIntegrationCommit (c : CommitRec) : Bool :=
  c.message == integrationBanner

/-- The error of a failed verification (spec 7: `NotOnIntegration(ref)`). -/
inductive VerifyError where
  | NotOnIntegration (ref : String)
deriving DecidableEq, Repr

/-- Modelled from the spec: the state `verify_branch` inspects: the name of
the ref HEAD points at, the commits on HEAD (newest first), and the branch
records. -/
structure WorkspaceHead where
  headRef : String
  headCommits : List CommitRec
  branches : List Branch
deriving DecidableEq, Repr

/-- Modelled from the spec: `verify_branch` (spec 6): succeeds exactly when
HEAD's top commit carries the integration banner, and otherwise fails with
`NotOnIntegration` carrying the current head ref. -/
def verify_branch (st : WorkspaceHead) : Except VerifyError Unit :=
  match st.headCommits with
  | [] => .error (.NotOnIntegration st.headRef)
  | top :: _ =>
    if isIntegrationCommit top then .ok () else .error (.NotOnIntegration st.headRef)

/-- The top applied virtual branch (lowest `order`). -/
def topAppliedBranch (branches : List Branch) : Option Branch :=
  pickBy (fun a b => a.order < b.order) (branches.filter (fun b => b.applied))

/-- Modelled from the spec: the higher-layer repair (spec 6): the commits
sitting on HEAD above the integration commit are recorded into the top
applied virtual branch and HEAD is reset onto the integration commit. -/
def repairIntegration (st : WorkspaceHead) : WorkspaceHead :=
  let extra := st.headCommits.takeWhile (fun c => !(isIntegrationCommit c))
  match topAppliedBranch st.branches with
  | none => st
  | some tb =>
    { st with
      headCommits := st.headCommits.dropWhile (fun c => !(isIntegrationCommit c)),
      branches := st.branches.map (fun b =>
        if b.id = tb.id then { b with commits := extra ++ b.commits } else b) }

theorem pickBy_mem (f : Branch → Branch → Bool) :
    ∀ (l : List Branch) (b : Branch), pickBy f l = some b → b ∈ l := by
  have haux : ∀ (cs : List Branch) (c : Branch),
      cs.foldl (fun best b => if f b best then b else best) c ∈ c :: cs := by
    intro cs
    induction cs with
    | nil => intro c; simp
    | cons d ds ih =>
      intro c
      simp only [List.foldl_cons]
      by_cases hfd : f d c = true
      · rw [if_pos hfd]
        exact List.mem_cons_of_mem c (ih d)
      · rw [if_neg hfd]
        rcases List.mem_cons.mp (ih c) with he | he
        · exact List.mem_cons.mpr (Or.inl he)
        · exact List.mem_cons.mpr (Or.inr (List.mem_cons_of_mem d he))
  intro l b hpick
  cases l with
  | nil => simp [pickBy] at hpick
  | cons c cs =>
    simp only [pickBy, Option.some_inj] at hpick
    rw [← hpick]
    exact haux cs c

theorem dropWhile_head_not {α : Type} (p : α → Bool) :
    ∀ (l : List α) (y : α) (rest : List α), l.dropWhile p = y :: rest → p y = false := by
  intro l
  induction l with
  | nil => intro y rest hdw; simp [List.dropWhile] at hdw
  | cons a as ih =>
    intro y rest hdw
    by_cases hpa : p a = true
    · rw [List.dropWhile_cons_of_pos hpa] at hdw
      exact ih y rest hdw
    · rw [List.dropWhile_cons_of_neg hpa] at hdw
      rcases hdw with ⟨⟩
      simpa using hpa

theorem dropWhile_ne_nil_of_exists {α : Type} (p : α → Bool) (l : List α)
    (hex : ∃ x ∈ l, p x = false) : ¬ l.dropWhile p = [] := by
  intro hnil
  rcases hex with ⟨x, hmem, hpx⟩
  have := List.dropWhile_eq_nil_iff.mp hnil x hmem
  rw [hpx] at this
  exact Bool.false_ne_true this

/-- Claim C7: `verify_branch` succeeds exactly when HEAD's top commit
carries the integration banner; with a top commit lacking the banner it
fails with `NotOnIntegration` naming the current head ref; and the
higher-layer repair records the commits above the integration commit into
the top applied branch, after which verification succeeds and the recorded
commits appear among that branch's commits. -/
theorem gitbutler_C7_verify_branch (st : WorkspaceHead) :
    (verify_branch st = .ok () ↔
      ∃ top rest, st.headCommits = top :: rest ∧ isIntegrationCommit top = true)
    ∧ (∀ top rest, st.headCommits = top :: rest → isIntegrationCommit top = false →
        verify_branch st = .error (.NotOnIntegration st.headRef))
    ∧ (∀ tb, topAppliedBranch st.branches = some tb →
        (∃ c ∈ st.headCommits, isIntegrationCommit c = true) →
        verify_branch (repairIntegration st) = .ok ()
        ∧ ∀ c ∈ st.headCommits.takeWhile (fun c => !(isIntegrationCommit c)),
            ∃ b ∈ (repairIntegration st).branches, b.id = tb.id ∧ c ∈ b.commits) := by
  refine ⟨?_, ?_, ?_⟩
  · constructor
    · intro hok
      cases hcs : st.headCommits with
      | nil => simp [verify_branch, hcs] at hok
      | cons top rest =>
        refine ⟨top, rest, rfl, ?_⟩
        by_contra hni
        simp only [Bool.not_eq_true] at hni
        simp [verify_branch, hcs, hni] at hok
    · rintro ⟨top, rest, hcs, hbanner⟩
      simp [verify_branch, hcs, hbanner]
  · intro top rest hcs hbanner
    simp [verify_branch, hcs, hbanner]
  · intro tb htb hex
    have hexf : ∃ c ∈ st.headCommits, (fun c => !(isIntegrationCommit c)) c = false := by
      rcases hex with ⟨c, hmem, hc⟩
      exact ⟨c, hmem, by simp [hc]⟩
    have hne := dropWhile_ne_nil_of_exists _ st.headCommits hexf
    constructor
    · cases hdw : st.headCommits.dropWhile (fun c => !(isIntegrationCommit c)) with
      | nil => exact absurd hdw hne
      | cons y rest =>
        have hy := dropWhile_head_not _ st.headCommits y rest hdw
        simp only [Bool.not_eq_false'] at hy
        simp [verify_branch, repairIntegration, htb, hdw, hy]
    · intro c hc
      refine ⟨{ tb with
          commits := st.headCommits.takeWhile (fun c => !(isIntegrationCommit c))
            ++ tb.commits }, ?_, by simp, ?_⟩
      · simp only [repairIntegration, htb]
        have htbmem : tb ∈ st.branches :=
          List.mem_of_mem_filter (pickBy_mem _ _ tb htb)
        refine List.mem_map.mpr ⟨tb, htbmem, ?_⟩
        simp
      · exact List.mem_append_left _ hc

/-- Head state of the `verify_branch_commits_to_integration` scenario: two
plain commits sit on top of the integration commit, one applied branch. -/
def c7Commit1 : CommitRec := ⟨"first", [("test2.txt", ["file"])], [], 1⟩

/-- Second stray commit of the C7 scenario. -/
def c7Commit2 : CommitRec := ⟨"update", [("test2.txt", ["update"])], [], 1⟩

/-- The integration commit of the C7 scenario. -/
def c7Integration : CommitRec := ⟨integrationBanner, [], [], 1⟩

/-- The single applied branch of the C7 scenario. -/
def c7Branch : Branch := ⟨1, true, 0, none, 0, ⟨[]⟩, [], false, []⟩

/-- HEAD of the C7 scenario. -/
def c7State : WorkspaceHead :=
  ⟨"refs/heads/gitbutler/integration", [c7Commit2, c7Commit1, c7Integration], [c7Branch]⟩

theorem gitbutler_C7_verify_branch_witness :
    topAppliedBranch c7State.branches = some c7Branch
    ∧ (∃ c ∈ c7State.headCommits, isIntegrationCommit c = true)
    ∧ verify_branch (repairIntegration c7State) = .ok ()
    ∧ verify_branch { c7State with headRef := "refs/heads/master" } =
        .error (.NotOnIntegration "refs/heads/master") :=
  ⟨by decide, by decide,
    ((gitbutler_C7_verify_branch c7State).2.2 c7Branch (by decide) (by decide)).1,
    (gitbutler_C7_verify_branch { c7State with headRef := "refs/heads/master" }).2.1
      c7Commit2 [c7Commit1, c7Integration] (by decide) (by decide)⟩

/-! ## Controller (src/crates/gitbutler-branch/src/controller.rs)

Direct embedding. External collaborators (repository opening, the
virtual-branch operations, snapshotting, fetching) are injected as
functions returning `Except String`, mirroring `anyhow::Result`; `git2::Oid`
and `BranchId` are opaque `Nat`s, `ReferenceName` a `String`. The
per-operation `self.permit(project.ignore_project_semaphore).await` call is
embedded separately as `Controller.permit` below. The snapshot calls whose
results the Rust discards (`let _ = …`) are collapsed into one discarded
`snapshot` call per operation. -/

/-- An opened `project_repository::Repository`. -/
structure Repository where
  projectId : Nat
deriving DecidableEq, Repr

/-- Embeds `open_with_verify` (controller.rs:503-507): open the repository,
then run `virtual_branches::integration::verify_branch` on it; either error
aborts. -/
def open_with_verify (openRepo : Except String Repository)
    (verify : Repository → Except String Unit) : Except String Repository :=
  match openRepo with
  | .error e => .error e
  | .ok project_repository =>
    match verify project_repository with
    | .error e => .error e
    | .ok _ => .ok project_repository

/-- State of a `tokio::sync::Semaphore`: the number of available permits. -/
structure Semaphore where
  permits : Nat
deriving DecidableEq, Repr

/-- `Semaphore::acquire`: succeeds at once iff a permit is available
(otherwise the caller would suspend until one is). -/
def Semaphore.tryAcquire (s : Semaphore) : Option Semaphore :=
  if s.permits = 0 then none else some ⟨s.permits - 1⟩

/-- Dropping a `SemaphorePermit` guard returns its permit. -/
def Semaphore.release (s : Semaphore) : Semaphore := ⟨s.permits + 1⟩

/-- The semaphore of `Controller::default` (controller.rs:29-35):
`Semaphore::new(1)`. -/
def Controller.defaultSemaphore : Semaphore := ⟨1⟩

/-- Embeds `Controller::permit` (controller.rs:496-501):
```
async fn permit(&self, ignore: bool) {
    if !ignore {
        let _permit = self.semaphore.acquire().await;
    }
}
```
The acquired `SemaphorePermit` guard is bound to a local of the `if` block,
so it is dropped — releasing the permit — before `permit` returns. The
function suspends until a permit is available (`none` here) and then
returns with the semaphore restored to its entry state. -/
def Controller.permit (ignore : Bool) (s : Semaphore) : Option Semaphore :=
  if ignore then some s
  else
    match s.tryAcquire with
    | none => none
    | some s2 => some s2.release

/-- Claim C8 (code bug): `Controller::permit` drops the semaphore guard when
it returns, so the permit is not held for the operation that follows: the
caller observes the semaphore unchanged (still one available permit), and a
second mutating call's `permit` therefore succeeds immediately while the
first operation's body is still running — whereas a held permit would leave
zero permits and make the second `acquire` suspend. -/
theorem gitbutler_C8_permit_released_on_return :
    Controller.permit false Controller.defaultSemaphore = some Controller.defaultSemaphore
    ∧ (Controller.permit false Controller.defaultSemaphore).bind (Controller.permit false)
        = some Controller.defaultSemaphore
    ∧ Semaphore.tryAcquire ⟨0⟩ = none := by
  decide

/-- The persistent target record's field the controller consults
(`target::Target::push_remote_name`). -/
structure Target where
  push_remote_name : Option String
deriving DecidableEq, Repr

/-- `projects::FetchResult` (timestamps as opaque `Nat`s). -/
inductive FetchResult where
  | Fetched (timestamp : Nat)
  | Error (timestamp : Nat) (error : String)
deriving DecidableEq, Repr

/-- Result of `fetch_from_remotes` together with the remotes on which
`fetch` was invoked, in order. -/
structure FetchOutcome where
  result : Except String FetchResult
  attempted : List String
deriving DecidableEq, Repr

/-- `Result::is_err`. -/
def isErr {ε α : Type} : Except ε α → Bool
  | .ok _ => false
  | .error _ => true

/-- Embeds `Controller::fetch_from_remotes` (controller.rs:437-478): open
the repository, fetch every configured remote collecting per-remote
results, aggregate them into `FetchResult::Fetched` (all succeeded) or
`FetchResult::Error` (messages joined by newlines), read the default
target, fetch its optional push-remote — a failure of that fetch is only
logged (`tracing::warn!`) — and return `Ok` with the aggregate computed
before the push-remote fetch. -/
def Controller.fetch_from_remotes
    (openRepo : Except String Repository)
    (remotes : Repository → Except String (List String))
    (fetch : String → Except String Unit)
    (get_default_target : Except String Target)
    (now : Nat) : FetchOutcome :=
  match openRepo with
  | .error e => ⟨.error e, []⟩
  | .ok project_repository =>
    match remotes project_repository with
    | .error e => ⟨.error e, []⟩
    | .ok rs =>
      let fetch_results := rs.map fetch
      let project_data_last_fetched :=
        if fetch_results.any isErr then
          FetchResult.Error now (String.intercalate "\n"
            (fetch_results.filterMap (fun r =>
              match r with
              | .ok _ => none
              | .error err => some err)))
        else FetchResult.Fetched now
      match get_default_target with
      | .error e => ⟨.error e, rs⟩
      | .ok default_target =>
        match default_target.push_remote_name with
        | none => ⟨.ok project_data_last_fetched, rs⟩
        | some push_remote =>
          match fetch push_remote with
          | .ok _ => ⟨.ok project_data_last_fetched, rs ++ [push_remote]⟩
          | .error _ => ⟨.ok project_data_last_fetched, rs ++ [push_remote]⟩

/-- A fetch collaborator where the configured remote succeeds and the
push-remote fails. -/
def c9Fetch : String → Except String Unit :=
  fun r => if r = "origin" then .ok () else .error "boom"

theorem gitbutler_C9_push_remote_failure_cex :
    Controller.fetch_from_remotes (.ok ⟨0⟩) (fun _ => .ok ["origin"]) c9Fetch
        (.ok ⟨some "push-origin"⟩) 5
      = ⟨.ok (.Fetched 5), ["origin", "push-origin"]⟩
    ∧ c9Fetch "push-origin" = .error "boom" := by
  decide

/-- Claim C9 (amended): `fetch_from_remotes` fetches every configured
remote and the target's optional push-remote; given the repository, remote
list and default target resolve, it returns `Ok`: `Fetched` with a
timestamp when every configured-remote fetch succeeded, or `Error` joining
the failing configured remotes' messages when any configured-remote fetch
failed — the push-remote's outcome is only logged and never reflected in
the returned payload, which is computed before that fetch. -/
theorem gitbutler_C9_fetch_aggregation
    (repo : Repository) (rs : List String) (dt : Target) (now : Nat)
    (openRepo : Except String Repository)
    (remotes : Repository → Except String (List String))
    (fetch : String → Except String Unit) (gdt : Except String Target)
    (hopen : openRepo = .ok repo) (hremotes : remotes repo = .ok rs)
    (hgdt : gdt = .ok dt) :
    ((∀ r ∈ rs, fetch r = .ok ()) →
      (Controller.fetch_from_remotes openRepo remotes fetch gdt now).result
        = .ok (.Fetched now))
    ∧ ((∃ r ∈ rs, isErr (fetch r) = true) →
      (Controller.fetch_from_remotes openRepo remotes fetch gdt now).result
        = .ok (.Error now (String.intercalate "\n"
            ((rs.map fetch).filterMap (fun r =>
              match r with
              | .ok _ => none
              | .error err => some err)))))
    ∧ (Controller.fetch_from_remotes openRepo remotes fetch gdt now).attempted
        = rs ++ (match dt.push_remote_name with
                 | none => []
                 | some push_remote => [push_remote]) := by
  subst hopen
  subst hgdt
  refine ⟨?_, ?_, ?_⟩
  · intro hall
    have hany : (rs.map fetch).any isErr = false := by
      rw [List.any_eq_false]
      intro r hr
      rcases List.mem_map.mp hr with ⟨r0, hr0, hre⟩
      rw [← hre, hall r0 hr0]
      simp [isErr]
    simp only [Controller.fetch_from_remotes, hremotes, hany, Bool.false_eq_true, if_false]
    cases hpr : dt.push_remote_name with
    | none => rfl
    | some push_remote =>
      cases hf : fetch push_remote <;> simp [hf]
  · intro hex
    have hany : (rs.map fetch).any isErr = true := by
      rw [List.any_eq_true]
      rcases hex with ⟨r, hr, hre⟩
      exact ⟨fetch r, List.mem_map.mpr ⟨r, hr, rfl⟩, hre⟩
    simp only [Controller.fetch_from_remotes, hremotes, hany, if_true]
    cases hpr : dt.push_remote_name with
    | none => rfl
    | some push_remote =>
      cases hf : fetch push_remote <;> simp [hf]
  · simp only [Controller.fetch_from_remotes, hremotes]
    cases hc : (rs.map fetch).any isErr <;>
      · cases hpr : dt.push_remote_name with
        | none => simp
        | some push_remote => cases hf : fetch push_remote <;> simp [hf]

theorem gitbutler_C9_fetch_aggregation_witness :
    ((fun r : String => if r = "origin" then Except.error "offline" else .ok ())
        : String → Except String Unit) "origin" = .error "offline"
    ∧ (Controller.fetch_from_remotes (.ok ⟨0⟩) (fun _ => .ok ["origin"])
        (fun r => if r = "origin" then Except.error "offline" else .ok ())
        (.ok ⟨some "push-origin"⟩) 7).result
      = .ok (.Error 7 (String.intercalate "\n"
          ((["origin"].map (fun r => if r = "origin" then Except.error "offline" else .ok ())).filterMap
            (fun r => match r with
              | .ok _ => none
              | .error err => some err)))) :=
  ⟨by decide,
    (gitbutler_C9_fetch_aggregation ⟨0⟩ ["origin"] ⟨some "push-origin"⟩ 7
      (.ok ⟨0⟩) (fun _ => .ok ["origin"])
      (fun r => if r = "origin" then Except.error "offline" else .ok ())
      (.ok ⟨some "push-origin"⟩) rfl rfl rfl).2.1
      ⟨"origin", by decide, by decide⟩⟩

/-! ## Claim C10: `open_with_verify` gating of the mutating operations

Each mutating controller method is `permit; open_with_verify?; …body…`;
the snapshot calls whose results the Rust discards are one ignored
`snapshot` application. `set_base_branch` and `set_target_push_remote` use
`Repository::open` directly, with no verification. -/

/-- `Controller::create_commit` (controller.rs:38-66). -/
def Controller.create_commit (openRepo : Except String Repository)
    (verify : Repository → Except String Unit)
    (snapshot : Repository → Except String Nat)
    (commitOp : Repository → Except String Nat) : Except String Nat :=
  match open_with_verify openRepo verify with
  | .error e => .error e
  | .ok project_repository =>
    let _ := snapshot project_repository
    commitOp project_repository

/-- `Controller::create_virtual_branch` (controller.rs:91-101). -/
def Controller.create_virtual_branch (openRepo : Except String Repository)
    (verify : Repository → Except String Unit)
    (createOp : Repository → Except String Nat) : Except String Nat :=
  match open_with_verify openRepo verify with
  | .error e => .error e
  | .ok project_repository => createOp project_repository

/-- `Controller::update_virtual_branch` (controller.rs:179-203): the old
branch is read (`?`) before the update runs. -/
def Controller.update_virtual_branch (openRepo : Except String Repository)
    (verify : Repository → Except String Unit)
    (snapshot : Repository → Except String Nat)
    (getBranch : Repository → Except String Nat)
    (updateOp : Repository → Except String Unit) : Except String Unit :=
  match open_with_verify openRepo verify with
  | .error e => .error e
  | .ok project_repository =>
    let _ := snapshot project_repository
    match getBranch project_repository with
    | .error e => .error e
    | .ok _ => updateOp project_repository

/-- `Controller::delete_virtual_branch` (controller.rs:204-213). -/
def Controller.delete_virtual_branch (openRepo : Except String Repository)
    (verify : Repository → Except String Unit)
    (deleteOp : Repository → Except String Unit) : Except String Unit :=
  match open_with_verify openRepo verify with
  | .error e => .error e
  | .ok project_repository => deleteOp project_repository

/-- `Controller::unapply_ownership` (controller.rs:215-227). -/
def Controller.unapply_ownership (openRepo : Except String Repository)
    (verify : Repository → Except String Unit)
    (snapshot : Repository → Except String Nat)
    (unapplyOp : Repository → Except String Unit) : Except String Unit :=
  match open_with_verify openRepo verify with
  | .error e => .error e
  | .ok project_repository =>
    let _ := snapshot project_repository
    unapplyOp project_repository

/-- `Controller::reset_files` (controller.rs:229-237). -/
def Controller.reset_files (openRepo : Except String Repository)
    (verify : Repository → Except String Unit)
    (snapshot : Repository → Except String Nat)
    (resetOp : Repository → Except String Unit) : Except String Unit :=
  match open_with_verify openRepo verify with
  | .error e => .error e
  | .ok project_repository =>
    let _ := snapshot project_repository
    resetOp project_repository

/-- `Controller::amend` (controller.rs:239-253). -/
def Controller.amend (openRepo : Except String Repository)
    (verify : Repository → Except String Unit)
    (snapshot : Repository → Except String Nat)
    (amendOp : Repository → Except String Nat) : Except String Nat :=
  match open_with_verify openRepo verify with
  | .error e => .error e
  | .ok project_repository =>
    let _ := snapshot project_repository
    amendOp project_repository

/-- `Controller::move_commit_file` (controller.rs:255-277). -/
def Controller.move_commit_file (openRepo : Except String Repository)
    (verify : Repository → Except String Unit)
    (snapshot : Repository → Except String Nat)
    (moveOp : Repository → Except String Nat) : Except String Nat :=
  match open_with_verify openRepo verify with
  | .error e => .error e
  | .ok project_repository =>
    let _ := snapshot project_repository
    moveOp project_repository

/-- `Controller::undo_commit` (controller.rs:279-300). -/
def Controller.undo_commit (openRepo : Except String Repository)
    (verify : Repository → Except String Unit)
    (snapshot : Repository → Except String Nat)
    (undoOp : Repository → Except String Unit) : Except String Unit :=
  match open_with_verify openRepo verify with
  | .error e => .error e
  | .ok project_repository =>
    let _ := snapshot project_repository
    undoOp project_repository

/-- `Controller::insert_blank_commit` (controller.rs:302-317). -/
def Controller.insert_blank_commit (openRepo : Except String Repository)
    (verify : Repository → Except String Unit)
    (snapshot : Repository → Except String Nat)
    (insertOp : Repository → Except String Unit) : Except String Unit :=
  match open_with_verify openRepo verify with
  | .error e => .error e
  | .ok project_repository =>
    let _ := snapshot project_repository
    insertOp project_repository

/-- `Controller::reorder_commit` (controller.rs:319-334). -/
def Controller.reorder_commit (openRepo : Except String Repository)
    (verify : Repository → Except String Unit)
    (snapshot : Repository → Except String Nat)
    (reorderOp : Repository → Except String Unit) : Except String Unit :=
  match open_with_verify openRepo verify with
  | .error e => .error e
  | .ok project_repository =>
    let _ := snapshot project_repository
    reorderOp project_repository

/-- `Controller::reset_virtual_branch` (controller.rs:336-350). -/
def Controller.reset_virtual_branch (openRepo : Except String Repository)
    (verify : Repository → Except String Unit)
    (snapshot : Repository → Except String Nat)
    (resetOp : Repository → Except String Unit) : Except String Unit :=
  match open_with_verify openRepo verify with
  | .error e => .error e
  | .ok project_repository =>
    let _ := snapshot project_repository
    resetOp project_repository

/-- `Controller::convert_to_real_branch` (controller.rs:352-374): the
resulting branch is turned into a reference name, which may itself fail. -/
def Controller.convert_to_real_branch (openRepo : Except String Repository)
    (verify : Repository → Except String Unit)
    (snapshot : Repository → Except String Nat)
    (convertOp : Repository → Except String Nat)
    (referenceName : Nat → Except String String) : Except String String :=
  match open_with_verify openRepo verify with
  | .error e => .error e
  | .ok project_repository =>
    let _ := snapshot project_repository
    match convertOp project_repository with
    | .error e => .error e
    | .ok b => referenceName b

/-- `Controller::push_virtual_branch` (controller.rs:376-387). -/
def Controller.push_virtual_branch (openRepo : Except String Repository)
    (verify : Repository → Except String Unit)
    (pushOp : Repository → Except String Unit) : Except String Unit :=
  match open_with_verify openRepo verify with
  | .error e => .error e
  | .ok project_repository => pushOp project_repository

/-- `Controller::squash` (controller.rs:406-419). -/
def Controller.squash (openRepo : Except String Repository)
    (verify : Repository → Except String Unit)
    (snapshot : Repository → Except String Nat)
    (squashOp : Repository → Except String Unit) : Except String Unit :=
  match open_with_verify openRepo verify with
  | .error e => .error e
  | .ok project_repository =>
    let _ := snapshot project_repository
    squashOp project_repository

/-- `Controller::update_commit_message` (controller.rs:421-435). -/
def Controller.update_commit_message (openRepo : Except String Repository)
    (verify : Repository → Except String Unit)
    (snapshot : Repository → Except String Nat)
    (updateOp : Repository → Except String Unit) : Except String Unit :=
  match open_with_verify openRepo verify with
  | .error e => .error e
  | .ok project_repository =>
    let _ := snapshot project_repository
    updateOp project_repository

/-- `Controller::move_commit` (controller.rs:480-494). -/
def Controller.move_commit (openRepo : Except String Repository)
    (verify : Repository → Except String Unit)
    (snapshot : Repository → Except String Nat)
    (moveOp : Repository → Except String Unit) : Except String Unit :=
  match open_with_verify openRepo verify with
  | .error e => .error e
  | .ok project_repository =>
    let _ := snapshot project_repository
    moveOp project_repository

/-- `Controller::integrate_upstream_commits` (controller.rs:147-160). -/
def Controller.integrate_upstream_commits (openRepo : Except String Repository)
    (verify : Repository → Except String Unit)
    (snapshot : Repository → Except String Nat)
    (integrateOp : Repository → Except String Unit) : Except String Unit :=
  match open_with_verify openRepo verify with
  | .error e => .error e
  | .ok project_repository =>
    let _ := snapshot project_repository
    integrateOp project_repository

/-- `Controller::update_base_branch` (controller.rs:162-177): the unapplied
branches are mapped to reference names, dropping the ones that fail. -/
def Controller.update_base_branch (openRepo : Except String Repository)
    (verify : Repository → Except String Unit)
    (snapshot : Repository → Except String Nat)
    (updateOp : Repository → Except String (List Nat))
    (referenceName : Nat → Except String String) : Except String (List String) :=
  match open_with_verify openRepo verify with
  | .error e => .error e
  | .ok project_repository =>
    let _ := snapshot project_repository
    match updateOp project_repository with
    | .error e => .error e
    | .ok unapplied_branches =>
      .ok (unapplied_branches.filterMap (fun b => (referenceName b).toOption))

/-- `Controller::set_base_branch` (controller.rs:130-140): plain
`Repository::open`, no verification. -/
def Controller.set_base_branch (openRepo : Except String Repository)
    (snapshot : Repository → Except String Nat)
    (setOp : Repository → Except String Nat) : Except String Nat :=
  match openRepo with
  | .error e => .error e
  | .ok project_repository =>
    let _ := snapshot project_repository
    setOp project_repository

/-- `Controller::set_target_push_remote` (controller.rs:142-145): plain
`Repository::open`, no verification. -/
def Controller.set_target_push_remote (openRepo : Except String Repository)
    (setOp : Repository → Except String Unit) : Except String Unit :=
  match openRepo with
  | .error e => .error e
  | .ok project_repository => setOp project_repository

/-- Claim C10: every mutating controller operation first verifies the
integration HEAD via `open_with_verify` and, when verification fails,
returns that error without invoking the underlying virtual-branch
operation (the result is the error for every possible operation);
`set_base_branch` and `set_target_push_remote` run their operation without
any verification. -/
theorem gitbutler_C10_verify_gates_mutations
    (repo : Repository) (e : String) (openRepo : Except String Repository)
    (verify : Repository → Except String Unit)
    (hopen : openRepo = .ok repo) (hverify : verify repo = .error e) :
    (∀ snap op, Controller.create_commit openRepo verify snap op = .error e)
    ∧ (∀ op, Controller.create_virtual_branch openRepo verify op = .error e)
    ∧ (∀ snap getb op, Controller.update_virtual_branch openRepo verify snap getb op = .error e)
    ∧ (∀ op, Controller.delete_virtual_branch openRepo verify op = .error e)
    ∧ (∀ snap op, Controller.unapply_ownership openRepo verify snap op = .error e)
    ∧ (∀ snap op, Controller.reset_files openRepo verify snap op = .error e)
    ∧ (∀ snap op, Controller.amend openRepo verify snap op = .error e)
    ∧ (∀ snap op, Controller.move_commit_file openRepo verify snap op = .error e)
    ∧ (∀ snap op, Controller.undo_commit openRepo verify snap op = .error e)
    ∧ (∀ snap op, Controller.insert_blank_commit openRepo verify snap op = .error e)
    ∧ (∀ snap op, Controller.reorder_commit openRepo verify snap op = .error e)
    ∧ (∀ snap op, Controller.reset_virtual_branch openRepo verify snap op = .error e)
    ∧ (∀ snap op rn, Controller.convert_to_real_branch openRepo verify snap op rn = .error e)
    ∧ (∀ op, Controller.push_virtual_branch openRepo verify op = .error e)
    ∧ (∀ snap op, Controller.squash openRepo verify snap op = .error e)
    ∧ (∀ snap op, Controller.update_commit_message openRepo verify snap op = .error e)
    ∧ (∀ snap op, Controller.move_commit openRepo verify snap op = .error e)
    ∧ (∀ snap op, Controller.integrate_upstream_commits openRepo verify snap op = .error e)
    ∧ (∀ snap op rn, Controller.update_base_branch openRepo verify snap op rn = .error e)
    ∧ (∀ snap op, Controller.set_base_branch openRepo snap op = op repo)
    ∧ (∀ op, Controller.set_target_push_remote openRepo op = op repo) := by
  subst hopen
  have hov : open_with_verify (.ok repo) verify = .error e := by
    simp [open_with_verify, hverify]
  refine ⟨?_, ?_, ?_, ?_, ?_, ?_, ?_, ?_, ?_, ?_, ?_, ?_, ?_, ?_, ?_, ?_, ?_, ?_, ?_, ?_, ?_⟩
  · intro snap op; simp [Controller.create_commit, hov]
  · intro op; simp [Controller.create_virtual_branch, hov]
  · intro snap getb op; simp [Controller.update_virtual_branch, hov]
  · intro op; simp [Controller.delete_virtual_branch, hov]
  · intro snap op; simp [Controller.unapply_ownership, hov]
  · intro snap op; simp [Controller.reset_files, hov]
  · intro snap op; simp [Controller.amend, hov]
  · intro snap op; simp [Controller.move_commit_file, hov]
  · intro snap op; simp [Controller.undo_commit, hov]
  · intro snap op; simp [Controller.insert_blank_commit, hov]
  · intro snap op; simp [Controller.reorder_commit, hov]
  · intro snap op; simp [Controller.reset_virtual_branch, hov]
  · intro snap op rn; simp [Controller.convert_to_real_branch, hov]
  · intro op; simp [Controller.push_virtual_branch, hov]
  · intro snap op; simp [Controller.squash, hov]
  · intro snap op; simp [Controller.update_commit_message, hov]
  · intro snap op; simp [Controller.move_commit, hov]
  · intro snap op; simp [Controller.integrate_upstream_commits, hov]
  · intro snap op rn; simp [Controller.update_base_branch, hov]
  · intro snap op; simp [Controller.set_base_branch]
  · intro op; simp [Controller.set_target_push_remote]

theorem gitbutler_C10_verify_gates_mutations_witness :
    Controller.create_commit (.ok ⟨0⟩) (fun _ => .error "head is refs/heads/master")
        (fun _ => .ok 1) (fun _ => .ok 42) = .error "head is refs/heads/master"
    ∧ Controller.update_base_branch (.ok ⟨0⟩) (fun _ => .error "head is refs/heads/master")
        (fun _ => .ok 1) (fun _ => .ok [7]) (fun _ => .ok "refs/heads/b")
        = .error "head is refs/heads/master"
    ∧ Controller.set_base_branch (.ok ⟨0⟩) (fun _ => .ok 1)
        (fun r => .ok r.projectId) = .ok 0 := by
  have h := gitbutler_C10_verify_gates_mutations ⟨0⟩ "head is refs/heads/master"
    (.ok ⟨0⟩) (fun _ => .error "head is refs/heads/master") rfl rfl
  refine ⟨h.1 (fun _ => .ok 1) (fun _ => .ok 42), ?_, ?_⟩
  · exact h.2.2.2.2.2.2.2.2.2.2.2.2.2.2.2.2.2.2.1 (fun _ => .ok 1) (fun _ => .ok [7])
      (fun _ => .ok "refs/heads/b")
  · rw [h.2.2.2.2.2.2.2.2.2.2.2.2.2.2.2.2.2.2.2.1 (fun _ => .ok 1) (fun r => .ok r.projectId)]

end GitButler
